import Mathlib

/-!
Shallow embedding of the kaleido compiler front end (a Kaleidoscope-style
tutorial compiler): token scanner, recursive-descent parser with
operator-precedence climbing, AST, and the tree-walking code generator.

The repository contains two scanner variants:
* `lexer.hpp` (`gettok`), which accumulates source characters, and
* `Scanner.cpp` / `main.cpp` (`gettok`), which accumulate
  `std::to_string(LastChar)` — the decimal ASCII code of each character.
Both are embedded below, in namespaces `Lexer` and `Scanner` respectively.

Machine `double` values never undergo arithmetic at compile time (they are
only parsed and stored), so they are modelled exactly as rationals.
-/

/-- C-locale `isspace` on the C `int` returned by `getchar` (`none` = EOF;
`isspace(EOF)` is false). -/
def isspaceC (c : Char) : Bool :=
  c == ' ' || c == '\t' || c == '\n' || c == '\x0b' || c == '\x0c' || c == '\r'

/-- C-locale `isalpha`. -/
def isalphaC (c : Char) : Bool :=
  (65 ≤ c.toNat && c.toNat ≤ 90) || (97 ≤ c.toNat && c.toNat ≤ 122)

/-- C-locale `isdigit`. -/
def isdigitC (c : Char) : Bool :=
  48 ≤ c.toNat && c.toNat ≤ 57

/-- C-locale `isalnum`. -/
def isalnumC (c : Char) : Bool :=
  isalphaC c || isdigitC c

/-- Decimal digits of a natural number (auxiliary, fuel-driven so that it
reduces by `rfl`/`decide`). -/
def natDecAux : Nat → Nat → List Char
  | 0, _ => []
  | fuel + 1, n =>
    if n < 10 then [Char.ofNat (48 + n)]
    else natDecAux fuel (n / 10) ++ [Char.ofNat (48 + n % 10)]

/-- Model of `std::to_string` on a nonnegative `int` (the character codes the
scanner feeds it are in 0..255). -/
def natToString (n : Nat) : String :=
  ⟨natDecAux (n + 1) n⟩

/-- Digits-to-natural accumulator. -/
def digitsToNat (l : List Char) : Nat :=
  l.foldl (fun a c => a * 10 + (c.toNat - 48)) 0

/-- Model of `strtod` on the buffers the scanner produces: an optional run of
leading digits, then optionally a `.` followed by a run of digits; everything
after that is ignored (as `strtod` stops at the first unparsable character). -/
def strtod (s : String) : ℚ :=
  let cs := s.toList
  let ip := cs.takeWhile isdigitC
  let rest := cs.dropWhile isdigitC
  let intPart : ℚ := (digitsToNat ip : ℚ)
  match rest with
  | '.' :: tl =>
    let fd := tl.takeWhile isdigitC
    intPart + (digitsToNat fd : ℚ) / ((10 : ℚ) ^ fd.length)
  | _ => intPart

/-- Tokens: the `Token` enum of `lexer.hpp` / `Scanner.h` / `main.cpp`, with
the payload globals (`IdentifierStr` / `IdentStr`, `NumVal`) attached to the
token they accompany, plus the "ascii value" fallback case. -/
inductive Tok where
  | eof
  | kwDef
  | kwExtern
  | ident (s : String)
  | num (v : ℚ)
  | ch (c : Char)
deriving DecidableEq

/-- Scanner state: `LastChar` (the lookahead character, `none` once `getchar`
has returned EOF) and the remaining input characters. -/
structure LexState where
  last : Option Char
  input : List Char
deriving DecidableEq

/-- Model of `getchar()` on a finite input: next character, or EOF (`none`). -/
def getcharM : List Char → Option Char × List Char
  | [] => (none, [])
  | c :: rest => (some c, rest)

/-- The `while (isspace(LastChar)) LastChar = getchar();` loop. -/
def skipWS : Option Char → List Char → Option Char × List Char
  | none, input => (none, input)
  | some c, input =>
    if isspaceC c then
      match input with
      | [] => (none, [])
      | d :: rest => skipWS (some d) rest
    else (some c, input)

/-- The comment loop
`do LastChar = getchar(); while (LastChar != '\n' && LastChar != EOF && LastChar != '\r');`. -/
def skipComment : List Char → Option Char × List Char
  | [] => (none, [])
  | c :: rest =>
    if c == '\n' || c == '\r' then (some c, rest) else skipComment rest

namespace Lexer

/-- Identifier loop of `lexer.hpp`:
`while (isalnum(LastChar = getchar())) IdentifierStr += LastChar;`. -/
def readIdent : String → List Char → String × Option Char × List Char
  | acc, [] => (acc, none, [])
  | acc, c :: rest =>
    if isalnumC c then readIdent (acc.push c) rest else (acc, some c, rest)

/-- Number loop of `lexer.hpp`:
`do { NumStr += LastChar; LastChar = getchar(); } while (isdigit(LastChar) || LastChar == '.');`.
Entered with the current `LastChar` as first argument. -/
def readNum : String → Char → List Char → String × Option Char × List Char
  | acc, c, input =>
    let acc := acc.push c
    match input with
    | [] => (acc, none, [])
    | d :: rest =>
      if isdigitC d || d == '.' then readNum acc d rest else (acc, some d, rest)

/-- Model of `gettok` of `lexer.hpp`.  The only self-call in the source is the tail
call after a comment, which always consumed at least one character, so a fuel
of `input.length + 1` is sufficient; fuel 0 is never reached from `scan`. -/
def gettok : Nat → LexState → Tok × LexState
  | 0, st => (.eof, st)
  | fuel + 1, st =>
    let (last, input) := skipWS st.last st.input
    match last with
    | none => (.eof, ⟨none, input⟩)
    | some c =>
      if isalphaC c then
        let (s, last1, input1) := readIdent (String.singleton c) input
        (if s == "def" then .kwDef
         else if s == "extern" then .kwExtern
         else .ident s, ⟨last1, input1⟩)
      else if isdigitC c || c == '.' then
        let (s, last1, input1) := readNum "" c input
        (.num (strtod s), ⟨last1, input1⟩)
      else if c == '#' then
        match skipComment input with
        | (some l, input1) => gettok fuel ⟨some l, input1⟩
        | (none, input1) => (.eof, ⟨none, input1⟩)
      else
        let (d, rest) := getcharM input
        (.ch c, ⟨d, rest⟩)

/-- One `gettok` call on a fresh input string (`LastChar` starts as `' '`). -/
def scan1 (s : String) : Tok :=
  (gettok (s.length + 1) ⟨some ' ', s.toList⟩).1

/-- Repeated `gettok` until `tok_eof`, collecting the tokens before it. -/
def tokenizeAux : Nat → LexState → List Tok
  | 0, _ => []
  | fuel + 1, st =>
    match gettok (st.input.length + 1) st with
    | (.eof, _) => []
    | (t, st1) => t :: tokenizeAux fuel st1

/-- The token stream of a whole input string. -/
def tokenize (s : String) : List Tok :=
  tokenizeAux (s.length + 1) ⟨some ' ', s.toList⟩

end Lexer

namespace Scanner

/-- Identifier loop of `Scanner.cpp` / `main.cpp`:
`while (isalnum(LastChar = getchar())) IdentStr += std::to_string(LastChar);`
— it appends the decimal ASCII code of each character. -/
def readIdent : String → List Char → String × Option Char × List Char
  | acc, [] => (acc, none, [])
  | acc, c :: rest =>
    if isalnumC c then readIdent (acc ++ natToString c.toNat) rest
    else (acc, some c, rest)

/-- Digit loop of `Scanner.cpp` / `main.cpp`:
`do { NumStr += std::to_string(LastChar); LastChar = getchar(); } while (isdigit(LastChar));`. -/
def readNum : String → Char → List Char → String × Option Char × List Char
  | acc, c, input =>
    let acc := acc ++ natToString c.toNat
    match input with
    | [] => (acc, none, [])
    | d :: rest =>
      if isdigitC d then readNum acc d rest else (acc, some d, rest)

/-- Model of `gettok` of `Scanner.cpp` (identical in `main.cpp`): like the `lexer.hpp`
variant except that identifier and number buffers accumulate
`std::to_string(LastChar)`, the number rule starts only on a digit, and an
optional fraction part (starting with `.`) is accumulated the same way. -/
def gettok : Nat → LexState → Tok × LexState
  | 0, st => (.eof, st)
  | fuel + 1, st =>
    let (last, input) := skipWS st.last st.input
    match last with
    | none => (.eof, ⟨none, input⟩)
    | some c =>
      if isalphaC c then
        let (s, last1, input1) := readIdent (natToString c.toNat) input
        (if s == "def" then .kwDef
         else if s == "extern" then .kwExtern
         else .ident s, ⟨last1, input1⟩)
      else if isdigitC c then
        let (s, last1, input1) := readNum "" c input
        match last1 with
        | some d =>
          if d == '.' then
            let (s2, last2, input2) := readNum s d input1
            (.num (strtod s2), ⟨last2, input2⟩)
          else (.num (strtod s), ⟨some d, input1⟩)
        | none => (.num (strtod s), ⟨none, input1⟩)
      else if c == '#' then
        match skipComment input with
        | (some l, input1) => gettok fuel ⟨some l, input1⟩
        | (none, input1) => (.eof, ⟨none, input1⟩)
      else
        let (d, rest) := getcharM input
        (.ch c, ⟨d, rest⟩)

/-- One `gettok` call on a fresh input string. -/
def scan1 (s : String) : Tok :=
  (gettok (s.length + 1) ⟨some ' ', s.toList⟩).1

/-- Repeated `gettok` until `tok_eof`. -/
def tokenizeAux : Nat → LexState → List Tok
  | 0, _ => []
  | fuel + 1, st =>
    match gettok (st.input.length + 1) st with
    | (.eof, _) => []
    | (t, st1) => t :: tokenizeAux fuel st1

/-- The token stream of a whole input string. -/
def tokenize (s : String) : List Tok :=
  tokenizeAux (s.length + 1) ⟨some ' ', s.toList⟩

end Scanner

/-- The AST expression variants (`NumberExprAst`, `VariableExprAst`,
`BinaryExprAst`, `CallExprAst` of `ast.hpp` / `main.cpp`) as one closed sum. -/
inductive ExprAST where
  | num (v : ℚ)
  | var (name : String)
  | bin (op : Char) (lhs rhs : ExprAST)
  | call (callee : String) (args : List ExprAST)

/-- Model of `PrototypeAST`: function name plus ordered parameter names. -/
structure PrototypeAST where
  name : String
  args : List String
deriving DecidableEq

/-- Model of `FunctionAST`: a prototype and exactly one body expression. -/
structure FunctionAST where
  proto : PrototypeAST
  body : ExprAST

/-- Parser state: `CurTok`, the remaining token stream, and the
`BinopPrecedence` table (a `std::map<char,int>`, threaded because
`operator[]` can insert). -/
structure PState where
  curTok : Tok
  rest : List Tok
  prec : List (Char × Int)
deriving DecidableEq

/-- Model of `getNextToken()`: pull the next token into `CurTok`; at the end of the
stream the lexer keeps producing `tok_eof`. -/
def PState.next (s : PState) : PState :=
  match s.rest with
  | [] => { s with curTok := .eof }
  | t :: r => { s with curTok := t, rest := r }

/-- Model of `std::map<char,int>` lookup (`find`-style, no insertion). -/
def tableLookup : List (Char × Int) → Char → Option Int
  | [], _ => none
  | (c1, v1) :: t, c => if c == c1 then some v1 else tableLookup t c

/-- Model of `std::map<char,int>` insertion/assignment, keeping the list sorted by
character code as `std::map` orders its keys. -/
def tableInsert : List (Char × Int) → Char → Int → List (Char × Int)
  | [], c, v => [(c, v)]
  | (c1, v1) :: t, c, v =>
    if c.toNat < c1.toNat then (c, v) :: (c1, v1) :: t
    else if c == c1 then (c, v) :: t
    else (c1, v1) :: tableInsert t c v

/-- The `BinopPrecedence` table as populated at startup in `main.cpp`
(`std::map` key order: the character codes of `*`, `+`, `-`, `<` ascend). -/
def BinopPrecedence : List (Char × Int) :=
  [('*', 40), ('+', 20), ('-', 20), ('<', 10)]

/-- The character stored when the parser keeps `CurTok` as the operator
(`int Binop = CurTok;` then the `char Op` field of `BinaryExprAst`). -/
def Tok.getCh : Tok → Char
  | .ch c => c
  | _ => Char.ofNat 0

/-- Model of `GetTokPrecedence()`: `-1` unless `CurTok` is an ASCII character with a
positive table entry.  Because the source reads `BinopPrecedence[CurTok]`
with `std::map::operator[]`, a character that is absent from the table is
inserted with value `0` (and `-1` is then returned since `0 <= 0`). -/
def GetTokPrecedence (s : PState) : Int × PState :=
  match s.curTok with
  | .ch c =>
    if c.toNat ≤ 127 then
      match tableLookup s.prec c with
      | some v => (if v ≤ 0 then -1 else v, s)
      | none => (-1, { s with prec := tableInsert s.prec c 0 })
    else (-1, s)
  | _ => (-1, s)

/-- Model of `ParseNumberExpr`: build the literal node from `NumVal` and consume the
number token. -/
def ParseNumberExpr (v : ℚ) (s : PState) : Option ExprAST × PState :=
  (some (.num v), s.next)

mutual

/-- Model of `ParsePrimary` of `parser.hpp` (`main.cpp` identical): dispatch on
`CurTok`.  All parser functions take a fuel argument decremented at every
call; fuel exhaustion yields the failure result and is never reached from the
entry points below when the fuel exceeds the token count. -/
def ParsePrimary : Nat → PState → Option ExprAST × PState
  | 0, s => (none, s)
  | fuel + 1, s =>
    match s.curTok with
    | .ident idName => ParseIdentifierExpr fuel idName s
    | .num v => ParseNumberExpr v s
    | .ch c =>
      if c == '(' then ParseParenExpr fuel s
      else (none, s)
    | _ => (none, s)

/-- Model of `ParseParenExpr`: eat `(`, parse an expression, require `)`. -/
def ParseParenExpr : Nat → PState → Option ExprAST × PState
  | 0, s => (none, s)
  | fuel + 1, s =>
    match ParseExpression fuel s.next with
    | (none, s1) => (none, s1)
    | (some v, s1) =>
      if s1.curTok == .ch ')' then (some v, s1.next)
      else (none, s1)

/-- Model of `ParseIdentifierExpr`: a variable reference, or a call when a `(`
follows the identifier. -/
def ParseIdentifierExpr : Nat → String → PState → Option ExprAST × PState
  | 0, _, s => (none, s)
  | fuel + 1, idName, s =>
    let s1 := s.next
    if s1.curTok == .ch '(' then
      let s2 := s1.next
      if s2.curTok == .ch ')' then (some (.call idName []), s2.next)
      else ParseCallArgs fuel idName [] s2
    else (some (.var idName), s1)

/-- The argument-list loop inside `ParseIdentifierExpr`: parse an expression,
then either close on `)`, continue past `,`, or fail. -/
def ParseCallArgs : Nat → String → List ExprAST → PState → Option ExprAST × PState
  | 0, _, _, s => (none, s)
  | fuel + 1, idName, acc, s =>
    match ParseExpression fuel s with
    | (none, s1) => (none, s1)
    | (some arg, s1) =>
      if s1.curTok == .ch ')' then (some (.call idName (acc ++ [arg])), s1.next)
      else if s1.curTok == .ch ',' then ParseCallArgs fuel idName (acc ++ [arg]) s1.next
      else (none, s1)

/-- Model of `ParseExpression`: one primary fed into the precedence-climbing loop. -/
def ParseExpression : Nat → PState → Option ExprAST × PState
  | 0, s => (none, s)
  | fuel + 1, s =>
    match ParsePrimary fuel s with
    | (none, s1) => (none, s1)
    | (some lhs, s1) => ParseBinOpRhs fuel 0 lhs s1

/-- Model of `ParseBinOpRhs`: the precedence-climbing loop (the source's `while(true)`
is the tail call with unchanged `exprPrec`). -/
def ParseBinOpRhs : Nat → Int → ExprAST → PState → Option ExprAST × PState
  | 0, _, _, s => (none, s)
  | fuel + 1, exprPrec, lhs, s =>
    match GetTokPrecedence s with
    | (tokPrec, s1) =>
      if tokPrec < exprPrec then (some lhs, s1)
      else
        let binOp := s1.curTok.getCh
        match ParsePrimary fuel s1.next with
        | (none, s3) => (none, s3)
        | (some rhs, s3) =>
          match GetTokPrecedence s3 with
          | (nextPrec, s4) =>
            if tokPrec < nextPrec then
              match ParseBinOpRhs fuel (tokPrec + 1) rhs s4 with
              | (none, s5) => (none, s5)
              | (some rhs1, s5) => ParseBinOpRhs fuel exprPrec (.bin binOp lhs rhs1) s5
            else ParseBinOpRhs fuel exprPrec (.bin binOp lhs rhs) s4

end

/-- The `while (getNextToken() == tok_identifier)` parameter-name loop of
`ParsePrototype`. -/
def protoArgsLoop : Nat → List String → PState → List String × PState
  | 0, acc, s => (acc, s)
  | fuel + 1, acc, s =>
    let s1 := s.next
    match s1.curTok with
    | .ident a => protoArgsLoop fuel (acc ++ [a]) s1
    | _ => (acc, s1)

/-- Model of `ParsePrototype`: function name, `(`, whitespace-separated parameter
names, `)`. -/
def ParsePrototype (fuel : Nat) (s : PState) : Option PrototypeAST × PState :=
  match s.curTok with
  | .ident fnName =>
    let s1 := s.next
    if s1.curTok == .ch '(' then
      match protoArgsLoop fuel [] s1 with
      | (args, s2) =>
        if s2.curTok == .ch ')' then (some ⟨fnName, args⟩, s2.next)
        else (none, s2)
    else (none, s1)
  | _ => (none, s)

/-- Model of `ParseDefinition`: `def` prototype expression. -/
def ParseDefinition (fuel : Nat) (s : PState) : Option FunctionAST × PState :=
  match ParsePrototype fuel s.next with
  | (none, s1) => (none, s1)
  | (some proto, s1) =>
    match ParseExpression fuel s1 with
    | (none, s2) => (none, s2)
    | (some e, s2) => (some ⟨proto, e⟩, s2)

/-- Model of `ParseExtern`: `extern` prototype. -/
def ParseExtern (fuel : Nat) (s : PState) : Option PrototypeAST × PState :=
  ParsePrototype fuel s.next

/-- Model of `ParseTopLevelExpr`: wrap a bare expression in an anonymous prototype. -/
def ParseTopLevelExpr (fuel : Nat) (s : PState) : Option FunctionAST × PState :=
  match ParseExpression fuel s with
  | (none, s1) => (none, s1)
  | (some e, s1) => (some ⟨⟨"", []⟩, e⟩, s1)

/-- Initial parser state over a token stream (the driver's first
`getNextToken()` loads the first token into `CurTok`). -/
def mkPState (toks : List Tok) (tbl : List (Char × Int)) : PState :=
  match toks with
  | [] => ⟨.eof, [], tbl⟩
  | t :: r => ⟨t, r, tbl⟩

/-- Scan a source string with the `lexer.hpp` scanner and run
`ParseExpression` on it with the startup precedence table. -/
def parseExprInput (src : String) : Option ExprAST × PState :=
  ParseExpression 100 (mkPState (Lexer.tokenize src) BinopPrecedence)

/-- IR values (`llvm::Value*`): floating constants, function arguments
(function name and argument position), and instruction results (numbered by
creation order). -/
inductive Val where
  | constFP (v : ℚ)
  | arg (fn : String) (idx : Nat)
  | instr (id : Nat)

/-- Emitted IR instructions, as created by the `IRBuilder` calls in the
`codegen` methods of `main.cpp` (`'<'` emits `fcmp ult` followed by
`uitofp`). -/
inductive Instr where
  | fadd (l r : Val)
  | fsub (l r : Val)
  | fmul (l r : Val)
  | fcmpULT (l r : Val)
  | uitofp (v : Val)
  | call (callee : String) (args : List Val)

/-- An `llvm::Function` in the module: name, named parameters, an optional
entry block holding the emitted instructions (`none` = declaration only,
i.e. `empty()`), and the value returned by `CreateRet` once the body is
finished. -/
structure IRFunction where
  name : String
  args : List String
  body : Option (List Instr)
  ret : Option Val

/-- Code-generator state: `TheModule`'s function list (in creation order),
the `NamedValues` symbol table (a `std::map<std::string, Value*>`, so kept
sorted by name; a `none` value is a stored null pointer), the builder's
insertion point, the next instruction number, and the diagnostics printed by
`LogErrorV`. -/
structure CG where
  module : List IRFunction
  namedValues : List (String × Option Val)
  insertFn : Option String
  nextId : Nat
  errs : List String

/-- The fresh state of `InitializeModule()`. -/
def CG.init : CG := ⟨[], [], none, 0, []⟩

/-- Model of `TheModule->getFunction(name)`. -/
def getFunction (m : List IRFunction) (n : String) : Option IRFunction :=
  m.find? (fun g => g.name == n)

/-- Model of `NamedValues.find`-style lookup (no insertion): `some v` means an entry
is present and stores the pointer `v` (`none` = stored null). -/
def nvLookup : List (String × Option Val) → String → Option (Option Val)
  | [], _ => none
  | (n1, v1) :: t, n => if n == n1 then some v1 else nvLookup t n

/-- Lexicographic character-code comparison: `std::string::operator<`
(the key order of `std::map<std::string, ...>`). -/
def charListLt : List Char → List Char → Bool
  | [], [] => false
  | [], _ :: _ => true
  | _ :: _, [] => false
  | a :: as, b :: bs =>
    a.toNat < b.toNat || (a.toNat == b.toNat && charListLt as bs)

/-- Model of `std::string` ordering on Lean strings. -/
def strLt (a b : String) : Bool :=
  charListLt a.toList b.toList

/-- Model of `NamedValues[n] = v` (`std::map::operator[]` insertion/assignment),
keeping the list sorted by key as `std::map` does. -/
def nvInsert : List (String × Option Val) → String → Option Val → List (String × Option Val)
  | [], n, v => [(n, v)]
  | (n1, v1) :: t, n, v =>
    if strLt n n1 then (n, v) :: (n1, v1) :: t
    else if n == n1 then (n, v) :: t
    else (n1, v1) :: nvInsert t n v

/-- Append an instruction to the entry block of the function named `f`. -/
def appendInstr (m : List IRFunction) (f : String) (i : Instr) : List IRFunction :=
  m.map (fun g => if g.name == f then { g with body := some (g.body.getD [] ++ [i]) } else g)

/-- Replace the body (block list) of the function named `f`. -/
def setBody (m : List IRFunction) (f : String) (b : Option (List Instr)) : List IRFunction :=
  m.map (fun g => if g.name == f then { g with body := b } else g)

/-- Record the `CreateRet` value of the function named `f`. -/
def setRet (m : List IRFunction) (f : String) (v : Val) : List IRFunction :=
  m.map (fun g => if g.name == f then { g with ret := some v } else g)

/-- Model of `Builder->Create...`: emit one instruction at the current insertion
point and return its result value.  (The source never emits without an
insertion point; if none is set the instruction lands nowhere.) -/
def emit (s : CG) (i : Instr) : Val × CG :=
  match s.insertFn with
  | some f => (.instr s.nextId, { s with module := appendInstr s.module f i, nextId := s.nextId + 1 })
  | none => (.instr s.nextId, { s with nextId := s.nextId + 1 })

/-- Model of `LogErrorV`: print the diagnostic and signal failure. -/
def logError (s : CG) (msg : String) : CG :=
  { s with errs := s.errs ++ [msg] }

mutual

/-- The `codegen()` methods of the four expression variants in `main.cpp`,
fuel-driven (fuel decrements at every recursive call; fuel `sizeOf e` always
suffices, and the claims below quantify over or instantiate the fuel). -/
def codegenExpr : Nat → ExprAST → CG → Option Val × CG
  | 0, _, s => (none, s)
  | _ + 1, .num v, s => (some (.constFP v), s)
  | _ + 1, .var n, s =>
    match nvLookup s.namedValues n with
    | some (some v) => (some v, s)
    | some none => (none, logError s "Unknown variable name")
    | none => (none, logError { s with namedValues := nvInsert s.namedValues n none }
        "Unknown variable name")
  | fuel + 1, .bin op l r, s =>
    match codegenExpr fuel l s with
    | (lv, s1) =>
      match codegenExpr fuel r s1 with
      | (rv, s2) =>
        match lv, rv with
        | some lV, some rV =>
          if op == '+' then
            let r := emit s2 (.fadd lV rV)
            (some r.1, r.2)
          else if op == '-' then
            let r := emit s2 (.fsub lV rV)
            (some r.1, r.2)
          else if op == '*' then
            let r := emit s2 (.fmul lV rV)
            (some r.1, r.2)
          else if op == '<' then
            let c := emit s2 (.fcmpULT lV rV)
            let r := emit c.2 (.uitofp c.1)
            (some r.1, r.2)
          else (none, logError s2 "invalid binary operator")
        | _, _ => (none, s2)
  | fuel + 1, .call callee args, s =>
    match getFunction s.module callee with
    | none => (none, logError s "Unknown function referenced")
    | some calleeF =>
      if calleeF.args.length ≠ args.length then
        (none, logError s "Incorrect # args passed")
      else
        match codegenArgs fuel args s with
        | (none, s1) => (none, s1)
        | (some vs, s1) =>
          let r := emit s1 (.call calleeF.name vs)
          (some r.1, r.2)

/-- The argument loop of `CallExprAst::codegen`: each argument is generated
in order, stopping at the first failure. -/
def codegenArgs : Nat → List ExprAST → CG → Option (List Val) × CG
  | 0, _, s => (none, s)
  | _ + 1, [], s => (some [], s)
  | fuel + 1, a :: rest, s =>
    match codegenExpr fuel a s with
    | (none, s1) => (none, s1)
    | (some v, s1) =>
      match codegenArgs fuel rest s1 with
      | (none, s2) => (none, s2)
      | (some vs, s2) => (some (v :: vs), s2)

end

/-- Decimal suffix search used to model LLVM's renaming when
`Function::Create` receives a name that is already taken (never exercised by
the claims, kept for faithfulness of the module's name-uniqueness). -/
def freshFrom : Nat → List IRFunction → String → Nat → String
  | 0, _, base, k => base ++ "." ++ natToString k
  | fuel + 1, m, base, k =>
    let cand := base ++ "." ++ natToString k
    if (getFunction m cand).isNone then cand else freshFrom fuel m base (k + 1)

/-- The name `Function::Create` actually gives the new function. -/
def freshName (m : List IRFunction) (base : String) : String :=
  if (getFunction m base).isNone then base else freshFrom (m.length + 1) m base 1

/-- Model of `PrototypeAst::codegen`: declare an external function with one `double`
parameter per name and bind the parameter names; returns the function's
name in the module. -/
def PrototypeAST.codegen (p : PrototypeAST) (s : CG) : String × CG :=
  let n := freshName s.module p.name
  (n, { s with module := s.module ++ [⟨n, p.args, none, none⟩] })

/-- Model of `NamedValues.clear()` followed by `NamedValues[Arg.getName()] = &Arg`
over the IR function's arguments. -/
def bindArgs (fn : String) (args : List String) : List (String × Option Val) :=
  (args.enum).foldl (fun nv p => nvInsert nv p.2 (some (.arg fn p.1))) []

/-- The tail of `FunctionAst::codegen` once the IR function `fn` (named
`fname` in the module) has been resolved: reject a redefinition (non-empty
function), otherwise open the entry block, point the builder at it, reset
`NamedValues` from `fn`'s own arguments, generate the body, and either
attach the return value or erase the function from the module. -/
def genBody (fuel : Nat) (b : ExprAST) (fname : String) (fn : IRFunction) (s1 : CG) :
    Option String × CG :=
  if fn.body.isSome then (none, logError s1 "Function cannot be redefined")
  else
    let s2 : CG := { s1 with
      module := setBody s1.module fname (some []),
      insertFn := some fname,
      namedValues := bindArgs fname fn.args }
    match codegenExpr fuel b s2 with
    | (some rv, s3) => (some fname, { s3 with module := setRet s3.module fname rv })
    | (none, s3) => (none, { s3 with module := s3.module.filter (fun g => g.name != fname) })

/-- Model of `FunctionAst::codegen` of `main.cpp`: reuse a previously declared
function of the same name or declare a fresh one from the prototype, then
hand over to `genBody`. -/
def FunctionAST.codegen (fuel : Nat) (f : FunctionAST) (s : CG) : Option String × CG :=
  let (fname, s1) :=
    match getFunction s.module f.proto.name with
    | some fn => (fn.name, s)
    | none => f.proto.codegen s
  match getFunction s1.module fname with
  | none => (none, s1)
  | some fn => genBody fuel f.body fname fn s1

/-- The table restricted to its operator entries: the pairs with positive
precedence (negative-or-zero entries are answered `-1`, "not a binary
operator", by `GetTokPrecedence`). -/
def posEntries (t : List (Char × Int)) : List (Char × Int) :=
  t.filter (fun p => decide (0 < p.2))

/-- The module with every function named `f` removed (what
`eraseFromParent` leaves behind; names in the module are unique). -/
def filterOut (f : String) (m : List IRFunction) : List IRFunction :=
  m.filter (fun g => g.name != f)

/-!
## Claim theorems

Small bridging lemmas first, then one theorem per claim (with witnesses for
theorems that carry hypotheses).
-/

/-- The token step `getNextToken` does not touch the precedence table. -/
theorem PState.next_prec (s : PState) : s.next.prec = s.prec := by
  cases h : s.rest <;> simp [PState.next, h]

/-- Looking a key up after inserting it finds exactly the inserted value. -/
theorem nvLookup_nvInsert_self (t : List (String × Option Val)) (n : String)
    (v : Option Val) : nvLookup (nvInsert t n v) n = some v := by
  induction t with
  | nil => simp [nvInsert, nvLookup]
  | cons p t ih =>
    obtain ⟨n1, v1⟩ := p
    by_cases h1 : strLt n n1 <;> by_cases h2 : n == n1 <;>
      simp [nvInsert, nvLookup, h1, h2, ih]

/-- Claim C1.  The `lexer.hpp` scanner satisfies the identifier rule
(`"def"` and `"extern"` become keyword tokens, other alphanumeric runs an
identifier token carrying the source characters), while the
`Scanner.cpp`/`main.cpp` scanner accumulates `std::to_string(LastChar)` —
the decimal ASCII codes — so scanning `"def"` yields an identifier token
with payload `"100101102"` instead of the `def` keyword token. -/
theorem scanner_keyword_identifier_code_bug :
    Lexer.scan1 "def" = .kwDef
      ∧ Lexer.scan1 "extern" = .kwExtern
      ∧ Lexer.scan1 "foo1" = .ident "foo1"
      ∧ Scanner.scan1 "def" = .ident "100101102"
      ∧ Scanner.scan1 "extern" = .ident "101120116101114110"
      ∧ Scanner.scan1 "foo1" = .ident "10211111149" := by
  refine ⟨rfl, rfl, rfl, rfl, rfl, rfl⟩

/-- Claim C6.  Scanning `"# comment\n42"`: the `lexer.hpp` scanner yields
exactly one number token with value 42 before end of input, but the
`Scanner.cpp`/`main.cpp` scanner yields a number token with value 5250
(the concatenated ASCII codes of `'4'` and `'2'` re-parsed by `strtod`). -/
theorem comment_scanning_code_bug :
    Lexer.tokenize "# comment\n42" = [.num 42]
      ∧ Scanner.tokenize "# comment\n42" = [.num 5250] := by
  refine ⟨rfl, rfl⟩

/-- Claim C2.  Precedence climbing respects the table: `*` (precedence 40)
binds strictly tighter than `+` (precedence 20) on both sides. -/
theorem precedence_climbing_respects_table :
    (parseExprInput "1+2*3").1
        = some (.bin '+' (.num 1) (.bin '*' (.num 2) (.num 3)))
      ∧ (parseExprInput "1*2+3").1
        = some (.bin '+' (.bin '*' (.num 1) (.num 2)) (.num 3))
      ∧ tableLookup BinopPrecedence '*' = some 40
      ∧ tableLookup BinopPrecedence '+' = some 20 := by
  refine ⟨rfl, rfl, rfl, rfl⟩

/-- Claim C7.  Operators of equal table precedence associate to the left:
`"1-2-3"` parses as `(1-2)-3`, not `1-(2-3)`. -/
theorem equal_precedence_left_assoc :
    (parseExprInput "1-2-3").1
        = some (.bin '-' (.bin '-' (.num 1) (.num 2)) (.num 3))
      ∧ (parseExprInput "1-2-3").1
        ≠ some (.bin '-' (.num 1) (.bin '-' (.num 2) (.num 3))) := by
  refine ⟨rfl, ?_⟩
  intro h
  rw [show (parseExprInput "1-2-3").1
      = some (.bin '-' (.bin '-' (.num 1) (.num 2)) (.num 3)) from rfl] at h
  simp at h

/-- Claim C3.  `extern foo(a)` then `def foo(a) a+1` succeeds; `def foo(a) a`
then `def foo(a) a+1` fails with "Function cannot be redefined" and leaves
the module exactly as after the first definition (whose finished body is the
entry block returning the argument). -/
theorem redefinition_policy :
    (FunctionAST.codegen 100 ⟨⟨"foo", ["a"]⟩, .bin '+' (.var "a") (.num 1)⟩
        ((PrototypeAST.codegen ⟨"foo", ["a"]⟩ CG.init).2)).1 = some "foo"
      ∧ (let s1 := (FunctionAST.codegen 100 ⟨⟨"foo", ["a"]⟩, .var "a"⟩ CG.init).2
         let r := FunctionAST.codegen 100 ⟨⟨"foo", ["a"]⟩, .bin '+' (.var "a") (.num 1)⟩ s1
         r.1 = none
           ∧ r.2.errs = s1.errs ++ ["Function cannot be redefined"]
           ∧ r.2.module = s1.module
           ∧ getFunction s1.module "foo"
             = some ⟨"foo", ["a"], some [], some (.arg "foo" 0)⟩) := by
  refine ⟨rfl, rfl, rfl, rfl, rfl⟩

/-- Claim C5.  `CallExprAst::codegen`: an absent callee fails with "Unknown
function referenced"; an arity mismatch fails with "Incorrect # args passed"
(`foo(a,b,c)` called with two arguments) while matching arity succeeds and
emits the call instruction; and arguments are generated left to right,
stopping at the first failure (the failing second argument's side effects
happen, the third argument's never do). -/
theorem call_codegen_errors_and_left_to_right :
    (∀ (fuel : Nat) (s : CG) (c : String) (args : List ExprAST),
        getFunction s.module c = none →
        codegenExpr (fuel + 1) (.call c args) s
          = (none, logError s "Unknown function referenced"))
      ∧ (∀ (fuel : Nat) (a : ExprAST) (rest : List ExprAST) (s s1 : CG),
          codegenExpr fuel a s = (none, s1) →
          codegenArgs (fuel + 1) (a :: rest) s = (none, s1))
      ∧ (codegenExpr 100 (.call "foo" [.num 1, .num 2])
          ((PrototypeAST.codegen ⟨"foo", ["a", "b", "c"]⟩ CG.init).2)).2.errs
          = ["Incorrect # args passed"]
      ∧ (codegenExpr 100 (.call "foo" [.num 1, .num 2])
          ((PrototypeAST.codegen ⟨"foo", ["a", "b", "c"]⟩ CG.init).2)).1 = none
      ∧ (FunctionAST.codegen 100 ⟨⟨"test", []⟩, .call "foo" [.num 1, .num 2]⟩
          ((PrototypeAST.codegen ⟨"foo", ["a", "b"]⟩ CG.init).2)).1 = some "test"
      ∧ getFunction (FunctionAST.codegen 100 ⟨⟨"test", []⟩, .call "foo" [.num 1, .num 2]⟩
          ((PrototypeAST.codegen ⟨"foo", ["a", "b"]⟩ CG.init).2)).2.module "test"
          = some ⟨"test", [], some [.call "foo" [.constFP 1, .constFP 2]], some (.instr 0)⟩
      ∧ (FunctionAST.codegen 100 ⟨⟨"test", []⟩, .call "foo" [.num 1, .var "u", .var "v"]⟩
          ((PrototypeAST.codegen ⟨"foo", ["a", "b", "c"]⟩ CG.init).2)).2.namedValues
          = [("u", none)]
      ∧ (FunctionAST.codegen 100 ⟨⟨"test", []⟩, .call "foo" [.num 1, .var "u", .var "v"]⟩
          ((PrototypeAST.codegen ⟨"foo", ["a", "b", "c"]⟩ CG.init).2)).2.errs
          = ["Unknown variable name"] := by
  refine ⟨?_, ?_, rfl, rfl, rfl, rfl, rfl, rfl⟩
  · intro fuel s c args h
    simp only [codegenExpr, h]
  · intro fuel a rest s s1 h
    simp only [codegenArgs, h]

/-- Witness for `call_codegen_errors_and_left_to_right`: its hypothesis
parts applied at concrete inputs. -/
theorem call_codegen_errors_and_left_to_right_witness :
    codegenExpr 1 (.call "g" []) CG.init
        = (none, logError CG.init "Unknown function referenced")
      ∧ codegenArgs 2 [.var "x", .num 5] CG.init
        = (none, ⟨[], [("x", none)], none, 0, ["Unknown variable name"]⟩) :=
  ⟨call_codegen_errors_and_left_to_right.1 0 CG.init "g" [] rfl,
   call_codegen_errors_and_left_to_right.2.1 1 (.var "x") [.num 5] CG.init
     ⟨[], [("x", none)], none, 0, ["Unknown variable name"]⟩ rfl⟩

/-- Claim C9.  When a `def` names an existing bodyless IR function, codegen
reuses it as-is: the result is entirely independent of the new prototype's
parameter list, the symbol table is populated from the existing function's
parameters, so against a prior `extern foo(b)` the body `a` of
`def foo(a) a` fails as an unknown variable while the body `b` succeeds. -/
theorem bodyless_reuse_ignores_new_prototype :
    (∀ (fuel : Nat) (s : CG) (n : String) (fn : IRFunction)
        (args1 args2 : List String) (b : ExprAST),
        getFunction s.module n = some fn → fn.body = none →
        FunctionAST.codegen fuel ⟨⟨n, args1⟩, b⟩ s
          = FunctionAST.codegen fuel ⟨⟨n, args2⟩, b⟩ s)
      ∧ (FunctionAST.codegen 100 ⟨⟨"foo", ["a"]⟩, .var "a"⟩
          ((PrototypeAST.codegen ⟨"foo", ["b"]⟩ CG.init).2)).1 = none
      ∧ (FunctionAST.codegen 100 ⟨⟨"foo", ["a"]⟩, .var "a"⟩
          ((PrototypeAST.codegen ⟨"foo", ["b"]⟩ CG.init).2)).2.errs
          = ["Unknown variable name"]
      ∧ (FunctionAST.codegen 100 ⟨⟨"foo", ["a"]⟩, .var "b"⟩
          ((PrototypeAST.codegen ⟨"foo", ["b"]⟩ CG.init).2)).1 = some "foo" := by
  refine ⟨?_, rfl, rfl, rfl⟩
  intro fuel s n fn args1 args2 b h _
  simp only [FunctionAST.codegen, h]

/-- Witness for `bodyless_reuse_ignores_new_prototype`: the reuse equation
applied at a concrete prior-extern state, with both hypotheses discharged. -/
theorem bodyless_reuse_ignores_new_prototype_witness :
    FunctionAST.codegen 5 ⟨⟨"foo", ["a"]⟩, .num 7⟩
        ((PrototypeAST.codegen ⟨"foo", ["b"]⟩ CG.init).2)
      = FunctionAST.codegen 5 ⟨⟨"foo", ["x", "y"]⟩, .num 7⟩
        ((PrototypeAST.codegen ⟨"foo", ["b"]⟩ CG.init).2) :=
  bodyless_reuse_ignores_new_prototype.1 5 _ "foo" ⟨"foo", ["b"], none, none⟩
    ["a"] ["x", "y"] (.num 7) rfl rfl

/-- Claim C10.  `VarExprAst::codegen` on a name that is absent from
`NamedValues` fails with the unknown-variable diagnostic, and — because the
lookup is `NamedValues[Name]`, a `std::map::operator[]` — it also inserts an
entry mapping the name to a null value, which a subsequent lookup finds. -/
theorem unknown_variable_lookup_inserts_null :
    ∀ (fuel : Nat) (s : CG) (n : String),
      nvLookup s.namedValues n = none →
      codegenExpr (fuel + 1) (.var n) s
          = (none, { s with namedValues := nvInsert s.namedValues n none,
                            errs := s.errs ++ ["Unknown variable name"] })
        ∧ nvLookup (nvInsert s.namedValues n none) n = some none := by
  intro fuel s n h
  exact ⟨by simp only [codegenExpr, h]; rfl, nvLookup_nvInsert_self _ _ _⟩

/-- Witness for `unknown_variable_lookup_inserts_null`: a generation state
whose symbol table holds exactly the parameter `a`, queried at `x`. -/
theorem unknown_variable_lookup_inserts_null_witness :
    codegenExpr 1 (.var "x") ⟨[], [("a", some (.arg "f" 0))], some "f", 0, []⟩
        = (none, ⟨[], [("a", some (.arg "f" 0)), ("x", none)], some "f", 0,
            ["Unknown variable name"]⟩)
      ∧ nvLookup [("a", some (.arg "f" 0)), ("x", none)] "x" = some none := by
  have h := unknown_variable_lookup_inserts_null 0
    ⟨[], [("a", some (.arg "f" 0))], some "f", 0, []⟩ "x" rfl
  exact ⟨h.1, h.2⟩

/-- Counterexample to claim C4 as stated: after `extern foo(a)`, a failed
`def foo(a) x` erases the reused IR function, so the name declared by the
prior extern is no longer resolvable (the module becomes empty). -/
theorem failed_body_erases_prior_decl_counterexample :
    (let s1 := (PrototypeAST.codegen ⟨"foo", ["a"]⟩ CG.init).2
     getFunction s1.module "foo" = some ⟨"foo", ["a"], none, none⟩
       ∧ (FunctionAST.codegen 100 ⟨⟨"foo", ["a"]⟩, .var "x"⟩ s1).1 = none
       ∧ (FunctionAST.codegen 100 ⟨⟨"foo", ["a"]⟩, .var "x"⟩ s1).2.module = []
       ∧ getFunction
           (FunctionAST.codegen 100 ⟨⟨"foo", ["a"]⟩, .var "x"⟩ s1).2.module "foo"
         = none) :=
  ⟨rfl, rfl, rfl, rfl⟩

/-- Inserting a zero-precedence entry for an absent key does not change the
positive (operator) entries of the table. -/
theorem posEntries_tableInsert_zero (t : List (Char × Int)) (c : Char)
    (h : tableLookup t c = none) :
    posEntries (tableInsert t c 0) = posEntries t := by
  induction t with
  | nil => simp [tableInsert, posEntries]
  | cons p t ih =>
    obtain ⟨c1, v1⟩ := p
    simp only [tableLookup] at h
    by_cases hc : (c == c1)
    · simp [hc] at h
    · simp only [hc, Bool.false_eq_true, if_false] at h
      by_cases hlt : c.toNat < c1.toNat
      · simp [tableInsert, hlt, posEntries]
      · simp [tableInsert, hlt, hc, posEntries, List.filter_cons] at ih ⊢
        simp [ih h]

/-- The probe `GetTokPrecedence` preserves the positive entries of the table (it can
only insert a zero entry for an absent ASCII key). -/
theorem GetTokPrecedence_posEntries (s : PState) :
    posEntries (GetTokPrecedence s).2.prec = posEntries s.prec := by
  cases htok : s.curTok with
  | ch c =>
    simp only [GetTokPrecedence, htok]
    by_cases ha : c.toNat ≤ 127
    · simp only [if_pos ha]
      cases hl : tableLookup s.prec c with
      | some v => simp [hl]
      | none => simpa [hl] using posEntries_tableInsert_zero s.prec c hl
    · simp [ha]
  | eof => simp [GetTokPrecedence, htok]
  | kwDef => simp [GetTokPrecedence, htok]
  | kwExtern => simp [GetTokPrecedence, htok]
  | ident i => simp [GetTokPrecedence, htok]
  | num v => simp [GetTokPrecedence, htok]

/-- Every expression-parsing function preserves the positive entries of the
precedence table, at every fuel. -/
theorem parser_posEntries (fuel : Nat) :
    (∀ s, posEntries (ParsePrimary fuel s).2.prec = posEntries s.prec)
      ∧ (∀ s, posEntries (ParseParenExpr fuel s).2.prec = posEntries s.prec)
      ∧ (∀ i s, posEntries (ParseIdentifierExpr fuel i s).2.prec = posEntries s.prec)
      ∧ (∀ i a s, posEntries (ParseCallArgs fuel i a s).2.prec = posEntries s.prec)
      ∧ (∀ s, posEntries (ParseExpression fuel s).2.prec = posEntries s.prec)
      ∧ (∀ p l s, posEntries (ParseBinOpRhs fuel p l s).2.prec = posEntries s.prec) := by
  induction fuel with
  | zero =>
    exact ⟨fun s => rfl, fun s => rfl, fun i s => rfl, fun i a s => rfl,
      fun s => rfl, fun p l s => rfl⟩
  | succ fuel ih =>
    obtain ⟨ihP, ihParen, ihId, ihArgs, ihE, ihB⟩ := ih
    refine ⟨?_, ?_, ?_, ?_, ?_, ?_⟩
    · intro s
      cases htok : s.curTok with
      | ident idName => simpa [ParsePrimary, htok] using ihId idName s
      | num v => simp [ParsePrimary, htok, ParseNumberExpr, PState.next_prec]
      | ch c =>
        by_cases hc : (c == '(')
        · simpa [ParsePrimary, htok, hc] using ihParen s
        · simp [ParsePrimary, htok, hc]
      | eof => simp [ParsePrimary, htok]
      | kwDef => simp [ParsePrimary, htok]
      | kwExtern => simp [ParsePrimary, htok]
    · intro s
      rcases hE : ParseExpression fuel s.next with ⟨v, s1⟩
      have h1 : posEntries s1.prec = posEntries s.prec := by
        have := ihE s.next
        rw [hE] at this
        simpa [PState.next_prec] using this
      cases v with
      | none => simpa [ParseParenExpr, hE] using h1
      | some v =>
        by_cases hp : (s1.curTok == .ch ')')
        · simp [ParseParenExpr, hE, hp, PState.next_prec, h1]
        · simp [ParseParenExpr, hE, hp, h1]
    · intro i s
      by_cases h1 : (s.next.curTok == .ch '(')
      · by_cases h2 : (s.next.next.curTok == .ch ')')
        · simp [ParseIdentifierExpr, h1, h2, PState.next_prec]
        · simpa [ParseIdentifierExpr, h1, h2, PState.next_prec]
            using ihArgs i [] s.next.next
      · simp [ParseIdentifierExpr, h1, PState.next_prec]
    · intro i a s
      rcases hE : ParseExpression fuel s with ⟨v, s1⟩
      have h1 : posEntries s1.prec = posEntries s.prec := by
        have := ihE s
        rw [hE] at this
        exact this
      cases v with
      | none => simpa [ParseCallArgs, hE] using h1
      | some arg =>
        by_cases hp : (s1.curTok == .ch ')')
        · simp [ParseCallArgs, hE, hp, PState.next_prec, h1]
        · by_cases hc : (s1.curTok == .ch ',')
          · have h2 := ihArgs i (a ++ [arg]) s1.next
            simp only [ParseCallArgs, hE, hp, hc] at h2 ⊢
            simp only [PState.next_prec] at h2
            simp [h2, h1]
          · simp [ParseCallArgs, hE, hp, hc, h1]
    · intro s
      rcases hP : ParsePrimary fuel s with ⟨v, s1⟩
      have h1 : posEntries s1.prec = posEntries s.prec := by
        have := ihP s
        rw [hP] at this
        exact this
      cases v with
      | none => simpa [ParseExpression, hP] using h1
      | some lhs =>
        have h2 := ihB 0 lhs s1
        simp only [ParseExpression, hP]
        simp [h2, h1]
    · intro p l s
      rcases hG : GetTokPrecedence s with ⟨tokPrec, s1⟩
      have hg : posEntries s1.prec = posEntries s.prec := by
        have := GetTokPrecedence_posEntries s
        rw [hG] at this
        exact this
      by_cases hcmp : tokPrec < p
      · simp [ParseBinOpRhs, hG, hcmp, hg]
      · rcases hP : ParsePrimary fuel s1.next with ⟨v, s3⟩
        have h3 : posEntries s3.prec = posEntries s.prec := by
          have := ihP s1.next
          rw [hP] at this
          simpa [PState.next_prec, hg] using this
        cases v with
        | none => simpa [ParseBinOpRhs, hG, hcmp, hP] using h3
        | some rhs =>
          rcases hG2 : GetTokPrecedence s3 with ⟨nextPrec, s4⟩
          have h4 : posEntries s4.prec = posEntries s.prec := by
            have := GetTokPrecedence_posEntries s3
            rw [hG2] at this
            rw [this, h3]
          by_cases h5 : tokPrec < nextPrec
          · rcases hB : ParseBinOpRhs fuel (tokPrec + 1) rhs s4 with ⟨v5, s5⟩
            have h6 : posEntries s5.prec = posEntries s.prec := by
              have := ihB (tokPrec + 1) rhs s4
              rw [hB] at this
              rw [this, h4]
            cases v5 with
            | none => simpa [ParseBinOpRhs, hG, hcmp, hP, hG2, h5, hB] using h6
            | some rhs1 =>
              have h7 := ihB p (.bin s1.curTok.getCh l rhs1) s5
              simp only [ParseBinOpRhs, hG, hcmp, hP, hG2, h5, hB, if_neg, if_pos]
              simp [h7, h6]
          · have h7 := ihB p (.bin s1.curTok.getCh l rhs) s4
            simp only [ParseBinOpRhs, hG, hcmp, hP, hG2, h5]
            simp [h7, h4]

/-- The prototype parameter loop never touches the precedence table. -/
theorem protoArgsLoop_prec (fuel : Nat) :
    ∀ acc s, (protoArgsLoop fuel acc s).2.prec = s.prec := by
  induction fuel with
  | zero => intro acc s; rfl
  | succ fuel ih =>
    intro acc s
    cases htok : s.next.curTok with
    | ident a => simp [protoArgsLoop, htok, ih, PState.next_prec]
    | eof => simp [protoArgsLoop, htok, PState.next_prec]
    | kwDef => simp [protoArgsLoop, htok, PState.next_prec]
    | kwExtern => simp [protoArgsLoop, htok, PState.next_prec]
    | num v => simp [protoArgsLoop, htok, PState.next_prec]
    | ch c => simp [protoArgsLoop, htok, PState.next_prec]

/-- Model of `ParsePrototype` never touches the precedence table. -/
theorem ParsePrototype_prec (fuel : Nat) (s : PState) :
    (ParsePrototype fuel s).2.prec = s.prec := by
  cases htok : s.curTok with
  | ident fnName =>
    by_cases h1 : (s.next.curTok == .ch '(')
    · rcases hL : protoArgsLoop fuel [] s.next with ⟨args, s2⟩
      have h2 : s2.prec = s.prec := by
        have := protoArgsLoop_prec fuel [] s.next
        rw [hL] at this
        simpa [PState.next_prec] using this
      by_cases h3 : (s2.curTok == .ch ')')
      · simp [ParsePrototype, htok, h1, hL, h3, PState.next_prec, h2]
      · simp [ParsePrototype, htok, h1, hL, h3, h2]
    · simp [ParsePrototype, htok, h1, PState.next_prec]
  | eof => simp [ParsePrototype, htok]
  | kwDef => simp [ParsePrototype, htok]
  | kwExtern => simp [ParsePrototype, htok]
  | num v => simp [ParsePrototype, htok]
  | ch c => simp [ParsePrototype, htok]

/-- Counterexample to claim C8 as stated: parsing `"(1)"` succeeds with the
literal `1`, yet leaves the precedence table with five entries — the failed
`operator[]` probe on `)` inserted `(')', 0)` — rather than exactly the four
startup entries. -/
theorem parse_mutates_precedence_table :
    (parseExprInput "(1)").1 = some (.num 1)
      ∧ (parseExprInput "(1)").2.prec
        = [(')', 0), ('*', 40), ('+', 20), ('-', 20), ('<', 10)]
      ∧ (parseExprInput "(1)").2.prec ≠ BinopPrecedence := by
  exact ⟨rfl, by decide, by decide⟩

/-- Claim C8, amended.  Parsing never adds, removes or changes any
positive-precedence (i.e. operator) entry of the table: the positive
entries after any `ParseExpression` / `ParseDefinition` / `ParseExtern` /
`ParseTopLevelExpr` run are exactly those before it (and the startup table
consists of exactly its four positive entries).  The table may however gain
zero-valued entries for non-operator ASCII characters probed via
`std::map::operator[]`, which `GetTokPrecedence` keeps reporting as `-1`. -/
theorem parse_preserves_positive_precedence_entries :
    (∀ fuel s, posEntries (ParseExpression fuel s).2.prec = posEntries s.prec)
      ∧ (∀ fuel s, posEntries (ParseDefinition fuel s).2.prec = posEntries s.prec)
      ∧ (∀ fuel s, posEntries (ParseExtern fuel s).2.prec = posEntries s.prec)
      ∧ (∀ fuel s, posEntries (ParseTopLevelExpr fuel s).2.prec = posEntries s.prec)
      ∧ posEntries BinopPrecedence = BinopPrecedence := by
  have hE : ∀ fuel s, posEntries (ParseExpression fuel s).2.prec = posEntries s.prec :=
    fun fuel s => (parser_posEntries fuel).2.2.2.2.1 s
  refine ⟨hE, ?_, ?_, ?_, by decide⟩
  · intro fuel s
    rcases hP : ParsePrototype fuel s.next with ⟨p, s1⟩
    have h1 : posEntries s1.prec = posEntries s.prec := by
      have h := ParsePrototype_prec fuel s.next
      rw [hP] at h
      exact congrArg posEntries (h.trans (PState.next_prec s))
    cases p with
    | none => simpa [ParseDefinition, hP] using h1
    | some proto =>
      rcases hEx : ParseExpression fuel s1 with ⟨e, s2⟩
      have h2 : posEntries s2.prec = posEntries s.prec := by
        have := hE fuel s1
        rw [hEx] at this
        rw [this, h1]
      cases e with
      | none => simpa [ParseDefinition, hP, hEx] using h2
      | some e => simpa [ParseDefinition, hP, hEx] using h2
  · intro fuel s
    have := ParsePrototype_prec fuel s.next
    simp [ParseExtern, this, PState.next_prec]
  · intro fuel s
    rcases hEx : ParseExpression fuel s with ⟨e, s1⟩
    have h1 : posEntries s1.prec = posEntries s.prec := by
      have := hE fuel s
      rw [hEx] at this
      exact this
    cases e with
    | none => simpa [ParseTopLevelExpr, hEx] using h1
    | some e => simpa [ParseTopLevelExpr, hEx] using h1

/-- Two generation states that agree on the insertion point and on the
module away from the function under construction. -/
def framePreserved (s s1 : CG) : Prop :=
  s1.insertFn = s.insertFn
    ∧ ∀ f, s.insertFn = some f → filterOut f s1.module = filterOut f s.module

theorem framePreserved_refl (s : CG) : framePreserved s s :=
  ⟨rfl, fun _ _ => rfl⟩

theorem framePreserved_trans {s t u : CG} (h1 : framePreserved s t)
    (h2 : framePreserved t u) : framePreserved s u :=
  ⟨h2.1.trans h1.1, fun f h =>
    (h2.2 f (h1.1.trans h)).trans (h1.2 f h)⟩

/-- Updating only the functions named `f` does not change the module away
from `f` (provided the update preserves names). -/
theorem filterOut_map_upd (f : String) (upd : IRFunction → IRFunction)
    (hn : ∀ g, (upd g).name = g.name) :
    ∀ m, filterOut f (m.map (fun g => if g.name == f then upd g else g))
      = filterOut f m := by
  intro m
  induction m with
  | nil => rfl
  | cons g m ih =>
    simp only [filterOut] at ih ⊢
    rw [List.map_cons]
    by_cases hg : (g.name == f)
    · have hgf : g.name = f := by simpa using hg
      have h1 : ((upd g).name != f) = false := by simp [bne, hn g, hgf]
      have h2 : (g.name != f) = false := by simp [bne, hgf]
      rw [if_pos hg, List.filter_cons, List.filter_cons, h1, h2]
      simpa using ih
    · have hgf : (g.name == f) = false := by simpa using hg
      have h2 : (g.name != f) = true := by simp [bne, hgf]
      rw [if_neg hg, List.filter_cons, List.filter_cons, h2]
      simpa using ih

theorem filterOut_appendInstr (m : List IRFunction) (f : String) (i : Instr) :
    filterOut f (appendInstr m f i) = filterOut f m :=
  filterOut_map_upd f
    (fun g => { g with body := some (g.body.getD [] ++ [i]) }) (fun _ => rfl) m

theorem filterOut_setBody (m : List IRFunction) (f : String)
    (b : Option (List Instr)) : filterOut f (setBody m f b) = filterOut f m :=
  filterOut_map_upd f (fun g => { g with body := b }) (fun _ => rfl) m

theorem filterOut_setRet (m : List IRFunction) (f : String) (v : Val) :
    filterOut f (setRet m f v) = filterOut f m :=
  filterOut_map_upd f (fun g => { g with ret := some v }) (fun _ => rfl) m

theorem framePreserved_emit (s : CG) (i : Instr) : framePreserved s (emit s i).2 := by
  cases h : s.insertFn with
  | none =>
    refine ⟨by simp [emit, h], fun f hf => ?_⟩
    rw [h] at hf
    cases hf
  | some f0 =>
    refine ⟨by simp [emit, h], fun f hf => ?_⟩
    rw [h] at hf
    injection hf with hf
    subst hf
    simp [emit, h, filterOut_appendInstr]

theorem framePreserved_logError (s : CG) (msg : String) :
    framePreserved s (logError s msg) :=
  ⟨rfl, fun _ _ => rfl⟩

/-- Expression code generation touches the module only through instruction
emission into the function under construction, so it preserves the frame. -/
theorem codegen_framePreserved (fuel : Nat) :
    (∀ e s, framePreserved s (codegenExpr fuel e s).2)
      ∧ (∀ l s, framePreserved s (codegenArgs fuel l s).2) := by
  induction fuel with
  | zero =>
    exact ⟨fun e s => framePreserved_refl s, fun l s => framePreserved_refl s⟩
  | succ fuel ih =>
    obtain ⟨ihE, ihA⟩ := ih
    constructor
    · intro e s
      cases e with
      | num v => exact framePreserved_refl s
      | var n =>
        cases hl : nvLookup s.namedValues n with
        | some v =>
          cases v with
          | some val =>
            simp only [codegenExpr, hl]
            exact framePreserved_refl s
          | none =>
            simp only [codegenExpr, hl]
            exact framePreserved_logError s _
        | none =>
          simp only [codegenExpr, hl]
          exact ⟨rfl, fun _ _ => rfl⟩
      | bin op l r =>
        rcases hL : codegenExpr fuel l s with ⟨lv, s1⟩
        rcases hR : codegenExpr fuel r s1 with ⟨rv, s2⟩
        have h1 : framePreserved s s1 := by
          have := ihE l s
          rw [hL] at this
          exact this
        have h2 : framePreserved s s2 :=
          framePreserved_trans h1 (by have := ihE r s1; rw [hR] at this; exact this)
        cases lv with
        | none =>
          cases rv with
          | none => simp only [codegenExpr, hL, hR]; exact h2
          | some rV => simp only [codegenExpr, hL, hR]; exact h2
        | some lV =>
          cases rv with
          | none => simp only [codegenExpr, hL, hR]; exact h2
          | some rV =>
            simp only [codegenExpr, hL, hR]
            by_cases hp : (op == '+')
            · rw [if_pos hp]
              exact framePreserved_trans h2 (framePreserved_emit s2 _)
            · rw [if_neg hp]
              by_cases hm : (op == '-')
              · rw [if_pos hm]
                exact framePreserved_trans h2 (framePreserved_emit s2 _)
              · rw [if_neg hm]
                by_cases ht : (op == '*')
                · rw [if_pos ht]
                  exact framePreserved_trans h2 (framePreserved_emit s2 _)
                · rw [if_neg ht]
                  by_cases hlt : (op == '<')
                  · rw [if_pos hlt]
                    exact framePreserved_trans h2
                      (framePreserved_trans (framePreserved_emit s2 _)
                        (framePreserved_emit _ _))
                  · rw [if_neg hlt]
                    exact framePreserved_trans h2 (framePreserved_logError s2 _)
      | call c args =>
        cases hG : getFunction s.module c with
        | none =>
          simp only [codegenExpr, hG]
          exact framePreserved_logError s _
        | some calleeF =>
          simp only [codegenExpr, hG]
          split
          · exact framePreserved_logError s _
          · rcases hAs : codegenArgs fuel args s with ⟨vs, s1⟩
            have h1 : framePreserved s s1 := by
              have := ihA args s
              rw [hAs] at this
              exact this
            cases vs with
            | none => exact h1
            | some vs => exact framePreserved_trans h1 (framePreserved_emit s1 _)
    · intro l s
      cases l with
      | nil => exact framePreserved_refl s
      | cons a rest =>
        rcases hA1 : codegenExpr fuel a s with ⟨v, s1⟩
        have h1 : framePreserved s s1 := by
          have := ihE a s
          rw [hA1] at this
          exact this
        simp only [codegenArgs, hA1]
        cases v with
        | none => exact h1
        | some v =>
          rcases hA2 : codegenArgs fuel rest s1 with ⟨vs, s2⟩
          have h2 : framePreserved s s2 :=
            framePreserved_trans h1
              (by have := ihA rest s1; rw [hA2] at this; exact this)
          simp only [hA2]
          cases vs with
          | none => exact h2
          | some vs => exact h2

/-- A successful module lookup returns a function carrying the looked-up
name. -/
theorem getFunction_name {m : List IRFunction} {n : String} {fn : IRFunction}
    (h : getFunction m n = some fn) : fn.name = n := by
  have := List.find?_some h
  simpa using this

/-- After every function named `n` is removed, `n` no longer resolves. -/
theorem getFunction_filterOut_self (m : List IRFunction) (n : String) :
    getFunction (filterOut n m) n = none := by
  induction m with
  | nil => rfl
  | cons g m ih =>
    by_cases hg : (g.name == n)
    · have hgf : g.name = n := by simpa using hg
      have h2 : (g.name != n) = false := by simp [bne, hgf]
      simpa [filterOut, List.filter_cons, h2] using ih
    · have hgf : (g.name == n) = false := by simpa using hg
      have h2 : (g.name != n) = true := by simp [bne, hgf]
      simp only [filterOut, getFunction] at ih
      simp [filterOut, List.filter_cons, h2, getFunction, List.find?_cons, hgf, ih]

/-- Appending a function with a hitherto-unused name makes that name resolve
to it. -/
theorem getFunction_append_of_none {m : List IRFunction} {n : String}
    (h : getFunction m n = none) (fn : IRFunction) (hf : (fn.name == n) = true) :
    getFunction (m ++ [fn]) n = some fn := by
  simp only [getFunction] at h ⊢
  rw [List.find?_append, h]
  simp [List.find?_cons, hf]

/-- If the body generation inside `genBody` fails (for a function that was
not a redefinition), the resulting module is the input module with the
function under construction erased. -/
theorem genBody_fail (fuel : Nat) (b : ExprAST) (fname : String) (fn : IRFunction)
    (s1 : CG) (hbody : fn.body = none)
    (hfail : (genBody fuel b fname fn s1).1 = none) :
    (genBody fuel b fname fn s1).2.module = filterOut fname s1.module := by
  simp only [genBody, hbody, Option.isSome_none, Bool.false_eq_true, if_false]
    at hfail ⊢
  rcases hB : codegenExpr fuel b { s1 with
      module := setBody s1.module fname (some []),
      insertFn := some fname,
      namedValues := bindArgs fname fn.args } with ⟨rv, s3⟩
  simp only [hB] at hfail
  cases rv with
  | some rv => simp at hfail
  | none =>
    have hfr := (codegen_framePreserved fuel).1 b { s1 with
      module := setBody s1.module fname (some []),
      insertFn := some fname,
      namedValues := bindArgs fname fn.args }
    rw [hB] at hfr
    have h1 : filterOut fname s3.module
        = filterOut fname (setBody s1.module fname (some [])) := hfr.2 fname rfl
    show filterOut fname s3.module = filterOut fname s1.module
    rw [h1, filterOut_setBody]

/-- Claim C4, amended.  When a function definition's body fails to generate
(the name being fresh or previously declared without a body), the partially
built IR function — including a declaration reused from a prior `extern` of
the same name — is removed from the module entirely, and every other
previously generated function is left untouched; the defined name itself is
no longer resolvable (see `failed_body_erases_prior_decl_counterexample`
for why the claim's "prior extern is still resolvable" part is false). -/
theorem failed_body_generation_erases_function (fuel : Nat) (P : PrototypeAST)
    (b : ExprAST) (s : CG)
    (hbodyless : ∀ fn, getFunction s.module P.name = some fn → fn.body = none)
    (hfail : (FunctionAST.codegen fuel ⟨P, b⟩ s).1 = none) :
    (FunctionAST.codegen fuel ⟨P, b⟩ s).2.module = filterOut P.name s.module
      ∧ getFunction (FunctionAST.codegen fuel ⟨P, b⟩ s).2.module P.name = none
      ∧ ∀ g ∈ s.module, g.name ≠ P.name →
          g ∈ (FunctionAST.codegen fuel ⟨P, b⟩ s).2.module := by
  cases hG : getFunction s.module P.name with
  | some fn =>
    have hname : fn.name = P.name := getFunction_name hG
    have hred : FunctionAST.codegen fuel ⟨P, b⟩ s = genBody fuel b P.name fn s := by
      simp only [FunctionAST.codegen, hG]
      rw [hname, hG]
    rw [hred] at hfail ⊢
    have hmod := genBody_fail fuel b P.name fn s (hbodyless fn hG) hfail
    refine ⟨hmod, ?_, ?_⟩
    · rw [hmod]
      exact getFunction_filterOut_self s.module P.name
    · intro g hgm hgn
      rw [hmod]
      exact List.mem_filter_of_mem hgm (by simp [bne, hgn])
  | none =>
    have hfresh : freshName s.module P.name = P.name := by
      simp [freshName, hG]
    have hred : FunctionAST.codegen fuel ⟨P, b⟩ s
        = genBody fuel b P.name ⟨P.name, P.args, none, none⟩
            { s with module := s.module ++ [⟨P.name, P.args, none, none⟩] } := by
      simp only [FunctionAST.codegen, PrototypeAST.codegen, hG, hfresh]
      rw [getFunction_append_of_none hG ⟨P.name, P.args, none, none⟩ (by simp)]
    rw [hred] at hfail ⊢
    have hmod := genBody_fail fuel b P.name ⟨P.name, P.args, none, none⟩ _ rfl hfail
    have hmod2 : (genBody fuel b P.name ⟨P.name, P.args, none, none⟩
        { s with module := s.module ++ [⟨P.name, P.args, none, none⟩] }).2.module
        = filterOut P.name s.module := by
      rw [hmod]
      show filterOut P.name (s.module ++ [⟨P.name, P.args, none, none⟩])
        = filterOut P.name s.module
      rw [filterOut, List.filter_append]
      simp [filterOut, bne]
    refine ⟨hmod2, ?_, ?_⟩
    · rw [hmod2]
      exact getFunction_filterOut_self s.module P.name
    · intro g hgm hgn
      rw [hmod2]
      exact List.mem_filter_of_mem hgm (by simp [bne, hgn])

/-- Witness for `failed_body_generation_erases_function`: the concrete
extern-then-failed-define run, hypotheses discharged at it. -/
theorem failed_body_generation_erases_function_witness :
    (FunctionAST.codegen 100 ⟨⟨"foo", ["a"]⟩, .var "x"⟩
        ((PrototypeAST.codegen ⟨"foo", ["a"]⟩ CG.init).2)).2.module
      = filterOut "foo" ((PrototypeAST.codegen ⟨"foo", ["a"]⟩ CG.init).2).module := by
  have h := failed_body_generation_erases_function 100 ⟨"foo", ["a"]⟩ (.var "x")
    ((PrototypeAST.codegen ⟨"foo", ["a"]⟩ CG.init).2)
    (fun fn hf => by
      have h2 := Option.some.inj
        (show some (⟨"foo", ["a"], none, none⟩ : IRFunction) = some fn from hf)
      rw [← h2])
    rfl
  exact h.1
